import Mathlib

/-!
Verification development for the sundial repository (src/sundial.py).

The program polls a solar inverter for instantaneous power and drives an
analog ammeter through a PWM output, linearizing the ammeter response
through a calibration curve.  Real-valued quantities are modelled as
rationals; the external collaborators (MODBUS transport, GPIO PWM pin,
interactive console) are modelled as explicit inputs and event traces.

Calibration points are pairs (pwm_percent, dial_percent), exactly as the
source stores them.
-/

namespace Sundial

/-- Last element of a nonempty list presented as head plus tail; mirrors
the final sample point a search over `xp` can land on. -/
def lastP (p : ℚ × ℚ) : List (ℚ × ℚ) → ℚ × ℚ
  | [] => p
  | q :: rest => lastP q rest

/-- Interior search of numpy interp over the sample points: starting from
point `p` with `p.1 ≤ x` as invariant, advance while the next sample
abscissa is still at most `x` (numpy takes the largest index `j` with
`xp[j] ≤ x`), then either return the exact ordinate at `x = xp[j]` or the
linear segment value `slope * (x - x1) + y1`, the formula of
numpy arr_interp. -/
def interpSearch (x : ℚ) (p : ℚ × ℚ) : List (ℚ × ℚ) → ℚ
  | [] => p.2
  | q :: rest =>
    if q.1 ≤ x then interpSearch x q rest
    else if x = p.1 then p.2
    else (q.2 - p.2) / (q.1 - p.1) * (x - p.1) + p.2

/-- Shallow embedding of numpy np.interp on a list of (abscissa, ordinate)
pairs.  Mirrors numpy arr_interp for a sorted abscissa sequence: first the
check `x` above the last abscissa (returns the right value, the last
ordinate), then `x` below the first abscissa (returns the left value, the
first ordinate), otherwise the segment search.  numpy raises on an empty
`xp`; that case is unreachable for the calibration sets of this program
and is mapped to 0. -/
def interpPts (x : ℚ) : List (ℚ × ℚ) → ℚ
  | [] => 0
  | p :: rest =>
    if x > (lastP p rest).1 then (lastP p rest).2
    else if x < p.1 then p.2
    else interpSearch x p rest

/-- np.interp with the two parallel lists used by the source,
`np.interp(x, xp, fp)`. -/
def np_interp (x : ℚ) (xp fp : List ℚ) : ℚ := interpPts x (xp.zip fp)

/-- dial_values = [point[1] for point in self.calibration_points] -/
def dial_values (calibration_points : List (ℚ × ℚ)) : List ℚ :=
  calibration_points.map (fun point => point.2)

/-- pwm_values = [point[0] for point in self.calibration_points] -/
def pwm_values (calibration_points : List (ℚ × ℚ)) : List ℚ :=
  calibration_points.map (fun point => point.1)

/-- SundialMonitor.apply_calibration: inverts the (pwm, dial) relation by
interpolating with the dial readings as abscissas and the pwm levels as
ordinates, then scales percent to a [0,1] PWM value. -/
def apply_calibration (calibration_points : List (ℚ × ℚ))
    (desired_percent : ℚ) : ℚ :=
  np_interp desired_percent (dial_values calibration_points)
    (pwm_values calibration_points) / 100

/-- Swap of one calibration point, (pwm, dial) to (dial, pwm); the zipped
argument list apply_calibration hands to np.interp. -/
def swapP (point : ℚ × ℚ) : ℚ × ℚ := (point.2, point.1)

/-- power_percent = (power_value / self.max_power) * 100, from
SundialMonitor.update_ammeter. -/
def power_percent (power_value max_power : ℚ) : ℚ :=
  power_value / max_power * 100

/-- SundialMonitor.update_ammeter: the PWM value written to the LED, with
no clamping between the power scaling and the calibration inversion. -/
def update_ammeter (calibration_points : List (ℚ × ℚ))
    (max_power power_value : ℚ) : ℚ :=
  apply_calibration calibration_points (power_percent power_value max_power)

/-- SundialMonitor.read_power: returns None when client.connect() fails,
otherwise the decoded register value.  The MODBUS transport is opaque; a
poll either yields an integer watts reading or the unavailable signal. -/
def read_power (connect_ok : Bool) (register_value : ℤ) : Option ℤ :=
  if connect_ok then some register_value else none

/-- Observable actions of one iteration of SundialMonitor.run. -/
inductive Event where
  | printedPower (w : ℤ)
  | setDrive (v : ℚ)
  | connectionFailed
  | slept
deriving DecidableEq

/-- Transient state of the monitor loop: the last PWM value written to
the LED. -/
structure MonitorState where
  led_value : ℚ
deriving DecidableEq

/-- One iteration of the while loop in SundialMonitor.run: on a reading,
print it, write the calibrated value to the LED, sleep; on None, print
the connection failure and sleep, leaving the LED untouched. -/
def poll_cycle (calibration_points : List (ℚ × ℚ)) (max_power : ℚ)
    (s : MonitorState) (reading : Option ℤ) : MonitorState × List Event :=
  match reading with
  | some w =>
      (⟨update_ammeter calibration_points max_power (w : ℚ)⟩,
       [Event.printedPower w,
        Event.setDrive (update_ammeter calibration_points max_power (w : ℚ)),
        Event.slept])
  | none => (s, [Event.connectionFailed, Event.slept])

/-- The monitor loop over a finite schedule of poll outcomes; each entry
gives the connect() result and the register value of that cycle.  Returns
the final state and the concatenated event trace. -/
def run_loop (calibration_points : List (ℚ × ℚ)) (max_power : ℚ) :
    MonitorState → List (Bool × ℤ) → MonitorState × List Event
  | s, [] => (s, [])
  | s, (c, v) :: rest =>
      let step := poll_cycle calibration_points max_power s (read_power c v)
      let tail := run_loop calibration_points max_power step.1 rest
      (tail.1, step.2 ++ tail.2)

/-- Operator console input during calibration: a parsed number, a line
that fails float() with ValueError, or a KeyboardInterrupt. -/
inductive OperatorInput where
  | value (reading : ℚ)
  | notANumber
  | interrupt
deriving DecidableEq

/-- State of the PWMLED handle used by run_calibration. -/
structure LedState where
  value : ℚ
  closed : Bool
deriving DecidableEq

/-- The inner while True loop of run_calibration: keep prompting until a
parsed reading lies in [0,100].  A ValueError line re-prompts; a
KeyboardInterrupt (or exhausted console) aborts with none. -/
def read_dial_reading : List OperatorInput → Option (ℚ × List OperatorInput)
  | [] => none
  | OperatorInput.interrupt :: _ => none
  | OperatorInput.notANumber :: rest => read_dial_reading rest
  | OperatorInput.value r :: rest =>
      if 0 ≤ r ∧ r ≤ 100 then some (r, rest) else read_dial_reading rest

/-- The for loop of run_calibration inside the try block: for each pwm
level set the LED to pwm/100, read one validated dial value, accumulate
the point.  Returns none for the captured list when interrupted, together
with the LED value at the moment the try block is left. -/
def capture_loop : List ℚ → List OperatorInput → List (ℚ × ℚ) → ℚ →
    Option (List (ℚ × ℚ)) × ℚ
  | [], _, acc, led => (some acc, led)
  | pwm :: rest, inputs, acc, _ =>
      match read_dial_reading inputs with
      | none => (none, pwm / 100)
      | some (r, inputs2) => capture_loop rest inputs2 (acc ++ [(pwm, r)]) (pwm / 100)

/-- run_calibration: the try block runs the capture loop, and the finally
block sets led.value = 0 and closes the LED on every exit path, normal or
exceptional, before control returns. -/
def run_calibration (calibration_percentages : List ℚ)
    (inputs : List OperatorInput) : Option (List (ℚ × ℚ)) × LedState :=
  let tryResult := capture_loop calibration_percentages inputs [] 0
  (tryResult.1, ⟨0, true⟩)

/-- Parsed content of the persisted calibration JSON: the calibrated flag
as data.get reads it (absent means false), and the calibration_points
entry, none when the key is missing.  Each point row is a JSON array of
numbers, exactly what tuple(point) accepts. -/
structure CalibrationData where
  calibrated : Bool
  calibration_points : Option (List (List ℚ))
deriving DecidableEq

/-- The calibration file as load_calibration observes it. -/
inductive FileState where
  | missing
  | invalidJson
  | parsed (data : CalibrationData)

/-- Uncaught Python exceptions load_calibration can raise: json.load on
malformed text, or the missing calibration_points key. -/
inductive LoadError where
  | jsonDecodeError
  | keyError
deriving DecidableEq

/-- default_points = [(p, p) for p in calibration_percentages], as rows. -/
def default_points (calibration_percentages : List ℚ) : List (List ℚ) :=
  calibration_percentages.map (fun p => [p, p])

/-- load_calibration: missing file returns the linear default with a
warning; otherwise the JSON is parsed, an uncalibrated flag only prints a
warning, and the point rows are returned.  The source wraps nothing in a
try block, so a decode failure or a missing calibration_points key is an
uncaught exception.  The returned warnings are the printed lines. -/
def load_calibration (file : FileState)
    (calibration_percentages : List ℚ) :
    Except LoadError (List (List ℚ)) × List String :=
  match file with
  | FileState.missing =>
      (Except.ok (default_points calibration_percentages),
       ["Warning: calibration file not found, using linear default"])
  | FileState.invalidJson => (Except.error LoadError.jsonDecodeError, [])
  | FileState.parsed data =>
      let warnings := if data.calibrated then []
        else ["Warning: Using uncalibrated default values. Run with --calibrate first."]
      match data.calibration_points with
      | none => (Except.error LoadError.keyError, warnings)
      | some points => (Except.ok points, warnings)

/-- Exception vocabulary the specification assigns to the inversion. -/
inductive InversionError where
  | calibrationDataError
deriving DecidableEq

/-- apply_calibration as a fallible computation: the source performs no
validation of the calibration data inside apply_calibration and has no
raise statement, so every call returns the interpolation result. -/
def apply_calibration_run (calibration_points : List (ℚ × ℚ))
    (desired_percent : ℚ) : Except InversionError ℚ :=
  Except.ok (apply_calibration calibration_points desired_percent)

/-! Helper lemmas about the embedding. -/

theorem lastP_cons (p q : ℚ × ℚ) (l : List (ℚ × ℚ)) :
    lastP p (q :: l) = lastP q l := rfl

theorem lastP_map (f : ℚ × ℚ → ℚ × ℚ) (p : ℚ × ℚ) (l : List (ℚ × ℚ)) :
    lastP (f p) (l.map f) = f (lastP p l) := by
  induction l generalizing p with
  | nil => rfl
  | cons q rest ih => simpa [lastP] using ih q

theorem lastP_mem (p : ℚ × ℚ) (l : List (ℚ × ℚ)) : lastP p l ∈ p :: l := by
  induction l generalizing p with
  | nil => simp [lastP]
  | cons q rest ih =>
      rw [lastP_cons]
      exact List.mem_cons_of_mem p (ih q)

theorem le_lastP_snd {p : ℚ × ℚ} {l : List (ℚ × ℚ)}
    (h : List.Pairwise (fun a b => a.2 ≤ b.2) (p :: l)) :
    p.2 ≤ (lastP p l).2 := by
  rcases List.mem_cons.mp (lastP_mem p l) with heq | hmem
  · rw [heq]
  · exact (List.pairwise_cons.mp h).1 _ hmem

theorem zip_dial_pwm (pts : List (ℚ × ℚ)) :
    (dial_values pts).zip (pwm_values pts) = pts.map swapP := by
  simp [dial_values, pwm_values, List.zip_map', swapP]

theorem np_interp_swap (x : ℚ) (pts : List (ℚ × ℚ)) :
    np_interp x (dial_values pts) (pwm_values pts) = interpPts x (pts.map swapP) := by
  rw [np_interp, zip_dial_pwm]

/-! Claim theorems. -/

/-- C1: for a calibration set with non-decreasing observed values, a
desired percent strictly below the first observed value yields exactly
the first point drive fraction, and strictly above the last observed
value yields exactly the last point drive fraction — the np.interp
boundary clamp, with no extrapolation and no division, including flat
observed sequences. -/
theorem C1_clamp_out_of_range (p : ℚ × ℚ) (pts : List (ℚ × ℚ)) (d : ℚ)
    (hmono : List.Pairwise (fun a b => a.2 ≤ b.2) (p :: pts)) :
    (d < p.2 → apply_calibration (p :: pts) d = p.1 / 100) ∧
    ((lastP p pts).2 < d → apply_calibration (p :: pts) d = (lastP p pts).1 / 100) := by
  have hlast : lastP (swapP p) (pts.map swapP) = swapP (lastP p pts) :=
    lastP_map swapP p pts
  have hle : p.2 ≤ (lastP p pts).2 := le_lastP_snd hmono
  constructor
  · intro hd
    rw [apply_calibration, np_interp_swap]
    simp only [List.map_cons, interpPts, hlast]
    rw [if_neg (by simp only [swapP]; exact not_lt.mpr (by linarith)),
      if_pos (by simpa [swapP] using hd)]
    simp [swapP]
  · intro hd
    rw [apply_calibration, np_interp_swap]
    simp only [List.map_cons, interpPts, hlast]
    rw [if_pos (by simpa [swapP] using hd)]
    simp [swapP]

/-- C1 witness: the flat observed sequence [(0,50),(100,50)]; desired 40
clamps to the first point drive 0, desired 60 clamps to the last point
drive 100. -/
theorem C1_clamp_witness :
    apply_calibration [((0:ℚ), (50:ℚ)), (100, 50)] 40 = 0 / 100 ∧
    apply_calibration [((0:ℚ), (50:ℚ)), (100, 50)] 60 = 100 / 100 := by
  constructor
  · exact (C1_clamp_out_of_range (0, 50) [(100, 50)] 40
      (by norm_num [List.pairwise_cons])).1 (by norm_num)
  · exact (C1_clamp_out_of_range (0, 50) [(100, 50)] 60
      (by norm_num [List.pairwise_cons])).2 (by norm_num [lastP])

/-- C3 counterexample: on the non-monotonic set [(0,50),(50,20),(100,80)]
(observed 20 follows observed 50), apply_calibration does not fail with
any error: at desired 30 it returns ok 0, an interpolation-clamp result
computed from the malformed data. -/
theorem C3_counterexample :
    ¬ List.Pairwise (fun a b => a.2 ≤ b.2)
        ([((0:ℚ), (50:ℚ)), (50, 20), (100, 80)] : List (ℚ × ℚ)) ∧
    apply_calibration_run [((0:ℚ), (50:ℚ)), (50, 20), (100, 80)] 30
      = Except.ok (0 : ℚ) := by
  constructor
  · intro h
    have h2 := (List.pairwise_cons.mp h).1 (50, 20) (by simp)
    norm_num at h2
  · show Except.ok _ = _
    norm_num [apply_calibration, np_interp, dial_values, pwm_values,
      List.zip, List.zipWith, interpPts, interpSearch, lastP]

/-- C3 amended: apply_calibration performs no monotonicity detection and
has no failure path; every calibration set, monotonic or not, produces an
ok interpolation result — on the non-monotonic set [(0,50),(50,20),(100,80)]
desired 60 yields the interpolated drive fraction 5/6. -/
theorem C3_no_monotonicity_check (pts : List (ℚ × ℚ)) (d : ℚ) :
    apply_calibration_run pts d = Except.ok (apply_calibration pts d) ∧
    apply_calibration [((0:ℚ), (50:ℚ)), (50, 20), (100, 80)] 60 = 5 / 6 := by
  refine ⟨rfl, ?_⟩
  norm_num [apply_calibration, np_interp, dial_values, pwm_values,
    List.zip, List.zipWith, interpPts, interpSearch, lastP]

/-- C4: a failed power read (connect returns false, read_power none)
leaves the monitor state — the last LED value — unchanged, produces
exactly the connection-failed report followed by the sleep, and the loop
continues with the remaining poll cycles; the cycle is a total function,
so no exception escapes it. -/
theorem C4_failed_read_preserves_state (pts : List (ℚ × ℚ)) (max_power : ℚ)
    (s : MonitorState) (v : ℤ) (rest : List (Bool × ℤ)) :
    (poll_cycle pts max_power s (read_power false v)).1 = s ∧
    (poll_cycle pts max_power s (read_power false v)).2
      = [Event.connectionFailed, Event.slept] ∧
    run_loop pts max_power s ((false, v) :: rest)
      = ((run_loop pts max_power s rest).1,
         Event.connectionFailed :: Event.slept :: (run_loop pts max_power s rest).2) := by
  refine ⟨rfl, rfl, ?_⟩
  simp [run_loop, poll_cycle, read_power]

/-- C5: the power percentage is computed as the exact rational
100 * power / max_power, reading 2880 at rated 5760 gives exactly 50, and
update_ammeter applies no clamp between the scaling and the calibration
inversion: the unclamped percentage reaches apply_calibration unchanged. -/
theorem C5_power_percent_exact (w m : ℚ) (hm : 0 < m) :
    power_percent w m = 100 * w / m ∧
    (∀ pts : List (ℚ × ℚ),
      update_ammeter pts m w = apply_calibration pts (100 * w / m)) ∧
    power_percent 2880 5760 = 50 := by
  have h : power_percent w m = 100 * w / m := by rw [power_percent]; ring
  exact ⟨h, fun pts => by rw [update_ammeter, h], by norm_num [power_percent]⟩

/-- C5 witness: reading 2880 at rated 5760, and an out-of-range reading
6000 (above rated capacity) passed through unclamped. -/
theorem C5_power_percent_witness :
    power_percent 2880 5760 = 100 * 2880 / 5760 ∧
    update_ammeter [((0:ℚ), 0), (100, 100)] 5760 6000
      = apply_calibration [((0:ℚ), 0), (100, 100)] (100 * 6000 / 5760) := by
  exact ⟨(C5_power_percent_exact 2880 5760 (by norm_num)).1,
    (C5_power_percent_exact 6000 5760 (by norm_num)).2.1 _⟩

/-- C6 counterexample: a parsed file whose calibration_points key is
missing makes load_calibration fail with an uncaught KeyError, and the
result is not the identity-default fallback — a malformed calibration
file is a hard failure, not a recovered warning. -/
theorem C6_counterexample :
    (load_calibration (FileState.parsed ⟨true, none⟩) [0, 25, 50, 75, 100]).1
      = Except.error LoadError.keyError ∧
    (load_calibration (FileState.parsed ⟨true, none⟩) [0, 25, 50, 75, 100]).1
      ≠ Except.ok (default_points [0, 25, 50, 75, 100]) := by
  refine ⟨rfl, ?_⟩
  intro h
  exact Except.noConfusion h

/-- C6 amended: malformed backing data is an uncaught exception, not a
recovered CalibrationDataError: a missing calibration_points key raises
KeyError and malformed JSON raises JSONDecodeError, with no fallback to
the identity default on either path. -/
theorem C6_malformed_is_uncaught_error (b : Bool) (percs : List ℚ) :
    (load_calibration (FileState.parsed ⟨b, none⟩) percs).1
      = Except.error LoadError.keyError ∧
    (load_calibration FileState.invalidJson percs).1
      = Except.error LoadError.jsonDecodeError := by
  cases b <;> exact ⟨rfl, rfl⟩

/-- C7: a missing calibration file makes load_calibration return the
synthetic identity rows [p, p] for each configured percentage together
with the surfaced warning line, and no failure; the source returns a
bare point list, the uncalibrated status being exactly this warning. -/
theorem C7_missing_file_default (calibration_percentages : List ℚ) :
    load_calibration FileState.missing calibration_percentages
      = (Except.ok (calibration_percentages.map (fun p => [p, p])),
         ["Warning: calibration file not found, using linear default"]) := rfl

/-- C8: on the example set [(0,0),(25,20),(50,45),(75,72),(100,100)],
desired 60 interpolates between (50,45) and (75,72): the drive percent is
50 + (60-45)/(72-45)*25 and the returned drive fraction is 23/36
(about 0.6389). -/
theorem C8_interpolation_example :
    apply_calibration [((0:ℚ), 0), (25, 20), (50, 45), (75, 72), (100, 100)] 60
      = 23 / 36 ∧
    100 * apply_calibration [((0:ℚ), 0), (25, 20), (50, 45), (75, 72), (100, 100)] 60
      = 50 + (60 - 45) / (72 - 45) * 25 := by
  constructor <;>
    norm_num [apply_calibration, np_interp, dial_values, pwm_values,
      List.zip, List.zipWith, interpPts, interpSearch, lastP]

/-- C9: run_calibration restores the actuator on every exit path: for
every level sequence and every operator input stream the finally block
leaves the LED at value 0 and closed — including the cancellation path,
exhibited by the interrupt stream, on which capture returns no points. -/
theorem C9_actuator_restored (levels : List ℚ) (inputs : List OperatorInput) :
    (run_calibration levels inputs).2 = ⟨0, true⟩ ∧
    (run_calibration [0, 25, 50, 75, 100] [OperatorInput.interrupt]).1 = none := by
  exact ⟨rfl, rfl⟩

/-! Bounds of the interpolation: the result always lies between the
bounds of the ordinate values. -/

theorem interpSearch_bounds (x lo hi : ℚ) :
    ∀ (pts : List (ℚ × ℚ)) (p : ℚ × ℚ), lo ≤ p.2 → p.2 ≤ hi →
      (∀ q ∈ pts, lo ≤ q.2 ∧ q.2 ≤ hi) → p.1 ≤ x →
      lo ≤ interpSearch x p pts ∧ interpSearch x p pts ≤ hi := by
  intro pts
  induction pts with
  | nil =>
      intro p h1 h2 _ _
      simpa [interpSearch] using ⟨h1, h2⟩
  | cons q rest ih =>
      intro p h1 h2 hall hpx
      have hq := hall q (List.mem_cons_self q rest)
      simp only [interpSearch]
      split_ifs with hqx hxp
      · exact ih q hq.1 hq.2 (fun r hr => hall r (List.mem_cons_of_mem q hr)) hqx
      · exact ⟨h1, h2⟩
      · push_neg at hqx
        have hpq : p.1 < q.1 := lt_of_le_of_lt hpx hqx
        have hkey : (q.2 - p.2) / (q.1 - p.1) * (x - p.1) + p.2
            = p.2 + (q.2 - p.2) * ((x - p.1) / (q.1 - p.1)) := by ring
        rw [hkey]
        set t := (x - p.1) / (q.1 - p.1) with ht
        have ht0 : 0 ≤ t := div_nonneg (by linarith) (by linarith)
        have ht1 : t ≤ 1 := by
          rw [ht, div_le_one (by linarith)]
          linarith
        constructor
        · nlinarith [mul_nonneg (sub_nonneg.mpr ht1) (sub_nonneg.mpr h1),
            mul_nonneg ht0 (sub_nonneg.mpr hq.1)]
        · nlinarith [mul_nonneg (sub_nonneg.mpr ht1) (sub_nonneg.mpr h2),
            mul_nonneg ht0 (sub_nonneg.mpr hq.2)]

theorem interpPts_bounds (x lo hi : ℚ) (p : ℚ × ℚ) (pts : List (ℚ × ℚ))
    (h : ∀ q ∈ p :: pts, lo ≤ q.2 ∧ q.2 ≤ hi) :
    lo ≤ interpPts x (p :: pts) ∧ interpPts x (p :: pts) ≤ hi := by
  have hlast := h (lastP p pts) (lastP_mem p pts)
  have hp := h p (List.mem_cons_self p pts)
  simp only [interpPts]
  split_ifs with h1 h2
  · exact hlast
  · exact hp
  · exact interpSearch_bounds x lo hi pts p hp.1 hp.2
      (fun q hq => h q (List.mem_cons_of_mem p hq)) (not_lt.mp h2)

theorem apply_calibration_bounds (pts : List (ℚ × ℚ))
    (hdrive : ∀ q ∈ pts, 0 ≤ q.1 ∧ q.1 ≤ 100) (d : ℚ) :
    0 ≤ apply_calibration pts d ∧ apply_calibration pts d ≤ 1 := by
  cases pts with
  | nil =>
      norm_num [apply_calibration, np_interp, dial_values, pwm_values,
        List.zip, List.zipWith, interpPts]
  | cons p rest =>
      have hmem : ∀ q ∈ (p :: rest).map swapP, (0:ℚ) ≤ q.2 ∧ q.2 ≤ 100 := by
        intro q hq
        rcases List.mem_map.mp hq with ⟨a, ha, rfl⟩
        exact hdrive a ha
      rw [List.map_cons] at hmem
      have hb := interpPts_bounds d 0 100 (swapP p) (rest.map swapP) hmem
      rw [apply_calibration, np_interp_swap, List.map_cons]
      exact ⟨div_nonneg hb.1 (by norm_num), by rw [div_le_one (by norm_num)]; exact hb.2⟩

theorem run_loop_setDrive (pts : List (ℚ × ℚ)) (max_power : ℚ) :
    ∀ (readings : List (Bool × ℤ)) (s : MonitorState) (v : ℚ),
      Event.setDrive v ∈ (run_loop pts max_power s readings).2 →
      ∃ w : ℤ, v = update_ammeter pts max_power (w : ℚ) := by
  intro readings
  induction readings with
  | nil =>
      intro s v h
      simp [run_loop] at h
  | cons c rest ih =>
      intro s v h
      obtain ⟨cb, cv⟩ := c
      simp only [run_loop] at h
      rw [List.mem_append] at h
      rcases h with h | h
      · rcases hcb : read_power cb cv with _ | w <;> rw [hcb] at h
        · simp [poll_cycle] at h
        · simp [poll_cycle] at h
          exact ⟨w, h⟩
      · exact ih _ v h

/-- C10: for a calibration set whose drive values lie in [0,100] and
whose observed values are non-decreasing, apply_calibration maps every
rational desired percent — including values below 0 and above 100 — to a
drive fraction in [0,1]; consequently update_ammeter does, and every
setDrive value the monitor loop emits to the actuator lies in [0,1]. -/
theorem C10_drive_in_unit_interval (pts : List (ℚ × ℚ))
    (hdrive : ∀ q ∈ pts, 0 ≤ q.1 ∧ q.1 ≤ 100)
    (hmono : List.Pairwise (fun a b => a.2 ≤ b.2) pts) :
    (∀ d : ℚ, 0 ≤ apply_calibration pts d ∧ apply_calibration pts d ≤ 1) ∧
    (∀ max_power w : ℚ,
      0 ≤ update_ammeter pts max_power w ∧ update_ammeter pts max_power w ≤ 1) ∧
    (∀ (max_power : ℚ) (s : MonitorState) (readings : List (Bool × ℤ)) (v : ℚ),
      Event.setDrive v ∈ (run_loop pts max_power s readings).2 →
      0 ≤ v ∧ v ≤ 1) := by
  refine ⟨apply_calibration_bounds pts hdrive,
    fun mp w => apply_calibration_bounds pts hdrive _, ?_⟩
  intro mp s readings v hv
  obtain ⟨w, rfl⟩ := run_loop_setDrive pts mp readings s v hv
  exact apply_calibration_bounds pts hdrive _

/-- C10 witness: the identity set, a desired percent of 250 far above
range, and a reading of 6000 watts above the rated 5760. -/
theorem C10_drive_witness :
    (0 ≤ apply_calibration [((0:ℚ), 0), (100, 100)] 250 ∧
      apply_calibration [((0:ℚ), 0), (100, 100)] 250 ≤ 1) ∧
    (0 ≤ update_ammeter [((0:ℚ), 0), (100, 100)] 5760 6000 ∧
      update_ammeter [((0:ℚ), 0), (100, 100)] 5760 6000 ≤ 1) := by
  have h := C10_drive_in_unit_interval [((0:ℚ), 0), (100, 100)]
    (by norm_num) (by norm_num [List.pairwise_cons])
  exact ⟨h.1 250, h.2.1 5760 6000⟩

/-! Round-trip machinery: on a strictly increasing calibration set the
inverse interpolation lands in the segment the forward interpolation
re-reads, and the two linear maps cancel. -/

theorem le_lastP_both {p : ℚ × ℚ} {l : List (ℚ × ℚ)}
    (h : List.Pairwise (fun a b => a.1 < b.1 ∧ a.2 < b.2) (p :: l)) :
    p.1 ≤ (lastP p l).1 ∧ p.2 ≤ (lastP p l).2 := by
  rcases List.mem_cons.mp (lastP_mem p l) with heq | hmem
  · rw [heq]
    exact ⟨le_refl _, le_refl _⟩
  · have hpl := (List.pairwise_cons.mp h).1 _ hmem
    exact ⟨hpl.1.le, hpl.2.le⟩

theorem interpPts_skip (a b : ℚ × ℚ) (l : List (ℚ × ℚ)) (x : ℚ)
    (hab : a.1 ≤ b.1) (hbx : b.1 ≤ x) :
    interpPts x (a :: b :: l) = interpPts x (b :: l) := by
  simp only [interpPts, lastP_cons]
  by_cases h1 : x > (lastP b l).1
  · rw [if_pos h1, if_pos h1]
  · rw [if_neg h1, if_neg h1,
      if_neg (show ¬ x < a.1 from not_lt.mpr (le_trans hab hbx)),
      if_neg (show ¬ x < b.1 from not_lt.mpr hbx)]
    simp only [interpSearch]
    rw [if_pos hbx]

theorem interpInv_segment (p q : ℚ × ℚ) (rest : List (ℚ × ℚ)) (d : ℚ)
    (hlo : p.2 ≤ d) (hq : d < q.2) (hhi : d ≤ (lastP q rest).2) :
    interpPts d ((p :: q :: rest).map swapP)
      = (if d = p.2 then p.1 else (q.1 - p.1) / (q.2 - p.2) * (d - p.2) + p.1) := by
  simp only [List.map_cons, interpPts, lastP_cons, lastP_map]
  simp only [swapP]
  rw [if_neg (show ¬ d > (lastP q rest).2 from not_lt.mpr hhi),
    if_neg (show ¬ d < p.2 from not_lt.mpr hlo)]
  simp only [interpSearch]
  rw [if_neg (show ¬ q.2 ≤ d from not_le.mpr hq)]

theorem interpInv_bounds :
    ∀ (pts : List (ℚ × ℚ)) (p : ℚ × ℚ) (d : ℚ),
      List.Pairwise (fun a b => a.1 < b.1 ∧ a.2 < b.2) (p :: pts) →
      p.2 ≤ d → d ≤ (lastP p pts).2 →
      p.1 ≤ interpPts d ((p :: pts).map swapP) ∧
      interpPts d ((p :: pts).map swapP) ≤ (lastP p pts).1 := by
  intro pts
  induction pts with
  | nil =>
      intro p d _ hlo hhi
      have hd : d = p.2 := le_antisymm (by simpa [lastP] using hhi) hlo
      subst hd
      simp [interpPts, interpSearch, lastP, swapP, lt_irrefl]
  | cons q rest ih =>
      intro p d h hlo hhi
      have hpq := (List.pairwise_cons.mp h).1 q (List.mem_cons_self q rest)
      have htail := (List.pairwise_cons.mp h).2
      have hql := le_lastP_both htail
      rw [lastP_cons] at hhi ⊢
      by_cases hq : q.2 ≤ d
      · have hskip : interpPts d ((p :: q :: rest).map swapP)
            = interpPts d ((q :: rest).map swapP) := by
          simp only [List.map_cons]
          exact interpPts_skip (swapP p) (swapP q) (rest.map swapP) d hpq.2.le hq
        rw [hskip]
        have hres := ih q d htail hq hhi
        exact ⟨le_trans hpq.1.le hres.1, hres.2⟩
      · push_neg at hq
        rw [interpInv_segment p q rest d hlo hq hhi]
        split_ifs with hdp
        · exact ⟨le_refl _, le_trans hpq.1.le hql.1⟩
        · have hne : p.2 < d := lt_of_le_of_ne hlo (Ne.symm hdp)
          have hd2 : 0 < q.2 - p.2 := by linarith
          have hd1 : 0 < q.1 - p.1 := by linarith
          set s := (q.1 - p.1) / (q.2 - p.2) with hs
          have hs0 : 0 < s := div_pos hd1 hd2
          have hscan : s * (q.2 - p.2) = q.1 - p.1 :=
            div_mul_cancel₀ _ (ne_of_gt hd2)
          have hform : s * (d - p.2) + p.1 = s * (d - p.2) + p.1 := rfl
          constructor
          · have h5 : 0 < s * (d - p.2) := mul_pos hs0 (by linarith)
            linarith
          · have h7 : s * (d - p.2) ≤ s * (q.2 - p.2) :=
              mul_le_mul_of_nonneg_left (by linarith) hs0.le
            rw [hscan] at h7
            linarith [hql.1]

theorem interp_roundtrip :
    ∀ (pts : List (ℚ × ℚ)) (p : ℚ × ℚ) (d : ℚ),
      List.Pairwise (fun a b => a.1 < b.1 ∧ a.2 < b.2) (p :: pts) →
      p.2 ≤ d → d ≤ (lastP p pts).2 →
      interpPts (interpPts d ((p :: pts).map swapP)) (p :: pts) = d := by
  intro pts
  induction pts with
  | nil =>
      intro p d _ hlo hhi
      have hd : d = p.2 := le_antisymm (by simpa [lastP] using hhi) hlo
      subst hd
      have hinner : interpPts p.2 ([p].map swapP) = p.1 := by
        simp [interpPts, interpSearch, lastP, swapP, lt_irrefl]
      rw [hinner]
      simp [interpPts, interpSearch, lastP, lt_irrefl]
  | cons q rest ih =>
      intro p d h hlo hhi
      have hpq := (List.pairwise_cons.mp h).1 q (List.mem_cons_self q rest)
      have htail := (List.pairwise_cons.mp h).2
      have hql := le_lastP_both htail
      rw [lastP_cons] at hhi
      by_cases hq : q.2 ≤ d
      · have hskip1 : interpPts d ((p :: q :: rest).map swapP)
            = interpPts d ((q :: rest).map swapP) := by
          simp only [List.map_cons]
          exact interpPts_skip (swapP p) (swapP q) (rest.map swapP) d hpq.2.le hq
        have hbounds := interpInv_bounds rest q d htail hq hhi
        have hskip2 : interpPts (interpPts d ((q :: rest).map swapP)) (p :: q :: rest)
            = interpPts (interpPts d ((q :: rest).map swapP)) (q :: rest) :=
          interpPts_skip p q rest _ hpq.1.le hbounds.1
        rw [hskip1, hskip2]
        exact ih q d htail hq hhi
      · push_neg at hq
        rw [interpInv_segment p q rest d hlo hq hhi]
        split_ifs with hdp
        · -- the inverse returned p.1; the forward map reads off p.2 = d
          subst hdp
          rw [show interpPts p.1 (p :: q :: rest)
              = interpSearch p.1 p (q :: rest) from ?_]
          · simp only [interpSearch]
            rw [if_neg (show ¬ q.1 ≤ p.1 from not_le.mpr hpq.1)]
            simp
          · simp only [interpPts, lastP_cons]
            rw [if_neg (show ¬ p.1 > (lastP q rest).1 from
                not_lt.mpr (le_trans hpq.1.le hql.1)),
              if_neg (show ¬ p.1 < p.1 from lt_irrefl p.1)]
        · have hne : p.2 < d := lt_of_le_of_ne hlo (Ne.symm hdp)
          have hd2 : 0 < q.2 - p.2 := by linarith
          have hd1 : 0 < q.1 - p.1 := by linarith
          set s := (q.1 - p.1) / (q.2 - p.2) with hs
          have hs0 : 0 < s := div_pos hd1 hd2
          have hscan : s * (q.2 - p.2) = q.1 - p.1 :=
            div_mul_cancel₀ _ (ne_of_gt hd2)
          set P := s * (d - p.2) + p.1 with hP
          have hPlo : p.1 < P := by
            have h5 : 0 < s * (d - p.2) := mul_pos hs0 (by linarith)
            rw [hP]
            linarith
          have hPhi : P < q.1 := by
            have h7 : s * (d - p.2) < s * (q.2 - p.2) :=
              mul_lt_mul_of_pos_left (by linarith) hs0
            rw [hscan] at h7
            rw [hP]
            linarith
          rw [show interpPts P (p :: q :: rest) = interpSearch P p (q :: rest) from ?_]
          · simp only [interpSearch]
            rw [if_neg (show ¬ q.1 ≤ P from not_le.mpr hPhi),
              if_neg (show ¬ P = p.1 from ne_of_gt hPlo)]
            rw [hP, hs]
            field_simp
            ring
          · simp only [interpPts, lastP_cons]
            rw [if_neg (show ¬ P > (lastP q rest).1 from
                not_lt.mpr (le_trans hPhi.le hql.1)),
              if_neg (show ¬ P < p.1 from not_lt.mpr hPlo.le)]

theorem np_interp_forward (x : ℚ) (pts : List (ℚ × ℚ)) :
    np_interp x (pwm_values pts) (dial_values pts) = interpPts x pts := by
  rw [np_interp]
  congr 1
  simp [pwm_values, dial_values, List.zip_map']

theorem pairwise_and {l : List (ℚ × ℚ)}
    (h1 : List.Pairwise (fun a b => a.1 < b.1) l)
    (h2 : List.Pairwise (fun a b => a.2 < b.2) l) :
    List.Pairwise (fun a b => a.1 < b.1 ∧ a.2 < b.2) l := by
  induction l with
  | nil => exact List.Pairwise.nil
  | cons p rest ih =>
      rw [List.pairwise_cons] at h1 h2 ⊢
      exact ⟨fun b hb => ⟨h1.1 b hb, h2.1 b hb⟩, ih h1.2 h2.2⟩

/-- C2: for a valid calibration set (length at least 2, drive percents
strictly increasing, observed percents strictly increasing) and a desired
percent within the closed observed range, re-evaluating the forward
piecewise-linear map (observed as a function of drive) at the drive
percent apply_calibration returns — its fraction scaled back by 100 —
reproduces the desired percent exactly. -/
theorem C2_roundtrip (p : ℚ × ℚ) (pts : List (ℚ × ℚ)) (d : ℚ)
    (hlen : 2 ≤ (p :: pts).length)
    (hpwm : List.Pairwise (fun a b => a.1 < b.1) (p :: pts))
    (hdial : List.Pairwise (fun a b => a.2 < b.2) (p :: pts))
    (hlo : p.2 ≤ d) (hhi : d ≤ (lastP p pts).2) :
    np_interp (100 * apply_calibration (p :: pts) d)
      (pwm_values (p :: pts)) (dial_values (p :: pts)) = d := by
  have hboth := pairwise_and hpwm hdial
  have h100 : 100 * apply_calibration (p :: pts) d
      = interpPts d ((p :: pts).map swapP) := by
    rw [apply_calibration, np_interp_swap]
    ring
  rw [h100, np_interp_forward]
  exact interp_roundtrip pts p d hboth hlo hhi

/-- C2 witness: the example calibration set of the specification and
desired percent 60; the forward map re-evaluated at the inverted drive
percent gives back exactly 60. -/
theorem C2_roundtrip_witness :
    np_interp (100 * apply_calibration
        [((0:ℚ), 0), (25, 20), (50, 45), (75, 72), (100, 100)] 60)
      (pwm_values [((0:ℚ), 0), (25, 20), (50, 45), (75, 72), (100, 100)])
      (dial_values [((0:ℚ), 0), (25, 20), (50, 45), (75, 72), (100, 100)]) = 60 := by
  exact C2_roundtrip (0, 0) [(25, 20), (50, 45), (75, 72), (100, 100)] 60
    (by norm_num) (by norm_num [List.pairwise_cons]) (by norm_num [List.pairwise_cons])
    (by norm_num) (by norm_num [lastP])

end Sundial
